import Mathlib

/-!
Verification of the gitEQ code-structure inference pipeline and frontend
utilities.  The analysis-side Python modules (`ast_dispatcher.py`,
`python_extractor.py`, `dependency_graph.py`, `graph_metrics.py`,
`archetype_detection.py`) are documented in the repository but their code is
not among the sources; those components are modelled from the specification
text, as marked on each definition.  The TypeScript frontend utilities
(`markdown.ts`, `storage.ts`, `Header.tsx`) are embedded from their sources.

String-valued computations are implemented over explicit character lists so
that every definition evaluates by kernel reduction on concrete inputs.
-/

/-! ## String helpers over character lists -/

def chars (s : String) : List Char := s.data

def ofChars (l : List Char) : String := String.mk l

/-- Split a character list at every occurrence of `sep`, mirroring the
behaviour of a single-character `split` (an empty input yields one empty
field, a trailing separator yields a trailing empty field). -/
def splitChars (sep : Char) : List Char → List (List Char)
  | [] => [[]]
  | c :: cs =>
    let rest := splitChars sep cs
    if c == sep then [] :: rest
    else
      match rest with
      | [] => [[c]]
      | r :: rs => (c :: r) :: rs

def splitStr (sep : Char) (s : String) : List String :=
  (splitChars sep (chars s)).map ofChars

def joinStr (sep : Char) (l : List String) : String :=
  ofChars (((l.map chars).intersperse [sep]).flatten)

def trimChars (l : List Char) : List Char :=
  ((l.dropWhile Char.isWhitespace).reverse.dropWhile Char.isWhitespace).reverse

/-- `hasLead lead l` is true when `l` begins with the characters `lead`. -/
def hasLead : List Char → List Char → Bool
  | [], _ => true
  | _ :: _, [] => false
  | a :: as, b :: bs => a == b && hasLead as bs

def lowerStr (s : String) : String := ofChars ((chars s).map Char.toLower)

/-! ## Symbol model (`symbols.py`) -/

inductive SymbolKind
  | imp
  | cls
  | func
deriving DecidableEq, Repr

structure SymbolRecord where
  file_path : String
  kind : SymbolKind
  name : String
  line : Nat
deriving DecidableEq, Repr

/-! ## Extraction dispatcher (`ast_dispatcher.py`) -/

abbrev Extractor := String → String → Except String (List SymbolRecord)

def fileExtension (path : String) : String :=
  let parts := splitStr '.' path
  if parts.length ≤ 1 then "" else parts.getLastD ""

/-- Modelled from the spec: `ast_dispatcher.py` is not among the sources.
One step of the dispatcher fold: route the file by extension through the
fixed table, skip it silently when no extractor is registered, record a
successful extraction in the first component and a per-file failure with its
message in the second. -/
def dispatchStep (table : List (String × Extractor)) (fc : String × String)
    (acc : List (String × List SymbolRecord) × List (String × String)) :
    List (String × List SymbolRecord) × List (String × String) :=
  match (table.find? (fun te => te.1 == fileExtension fc.1)).map (fun te => te.2) with
  | none => acc
  | some ex =>
    match ex fc.1 fc.2 with
    | Except.ok recs => ((fc.1, recs) :: acc.1, acc.2)
    | Except.error msg => (acc.1, (fc.1, msg) :: acc.2)

/-- Modelled from the spec: `ast_dispatcher.py` is not among the sources.
Given the extension table and the batch of `(path, content)` pairs, produce
the mapping of successfully extracted files and the failed set with reasons;
the dispatcher is a total function, so no failure escapes it. -/
def dispatchExtract (table : List (String × Extractor))
    (files : List (String × String)) :
    List (String × List SymbolRecord) × List (String × String) :=
  files.foldr (dispatchStep table) ([], [])

/-! ## Python extractor (`python_extractor.py`) -/

/-- The identifier-like token following the keyword `kw` in the trimmed
line `t`: skip the keyword and leading blanks, stop at a blank, an opening
parenthesis or a colon. -/
def tokenAfter (kw : List Char) (t : List Char) : String :=
  ofChars (((t.drop kw.length).dropWhile (fun c => c == ' ')).takeWhile
    (fun c => !(c == ' ' || c == '(' || c == ':')))

/-- Modelled from the spec: `python_extractor.py` is not among the sources.
Line-based model of the AST walk: a line introducing `import M`,
`from M import ...`, `class C...` or `def f(...)` yields one record of the
corresponding kind with the source line number; every other line yields
nothing. -/
def pyLineRecords (path : String) (lineNo : Nat) (line : String) :
    List SymbolRecord :=
  let t := trimChars (chars line)
  if hasLead (chars "import ") t then
    [{ file_path := path, kind := SymbolKind.imp,
       name := tokenAfter (chars "import ") t, line := lineNo }]
  else if hasLead (chars "from ") t then
    [{ file_path := path, kind := SymbolKind.imp,
       name := tokenAfter (chars "from ") t, line := lineNo }]
  else if hasLead (chars "class ") t then
    [{ file_path := path, kind := SymbolKind.cls,
       name := tokenAfter (chars "class ") t, line := lineNo }]
  else if hasLead (chars "def ") t then
    [{ file_path := path, kind := SymbolKind.func,
       name := tokenAfter (chars "def ") t, line := lineNo }]
  else []

/-- True when the line carries one of the four recognized constructs. -/
def recognizesLine (line : String) : Bool :=
  let t := trimChars (chars line)
  hasLead (chars "import ") t || hasLead (chars "from ") t ||
    hasLead (chars "class ") t || hasLead (chars "def ") t

def pyLines (path : String) : Nat → List String → List SymbolRecord
  | _, [] => []
  | n, line :: rest => pyLineRecords path n line ++ pyLines path (n + 1) rest

/-- Modelled from the spec: `python_extractor.py` is not among the sources.
The extractor walks the lines of the file in order, numbering them from 1,
and never fails: files with no recognized construct give an empty record
sequence. -/
def pythonExtract : Extractor := fun path content =>
  Except.ok (pyLines path 1 (splitStr '\n' content))

/-! ## Dependency graph builder (`dependency_graph.py`) -/

def pathSegs (p : String) : List String := splitStr '/' p

def dirSegs (p : String) : List String := (pathSegs p).dropLast

def dropExtSeg (seg : String) : String :=
  let parts := splitStr '.' seg
  if parts.length ≤ 1 then seg else joinStr '.' parts.dropLast

/-- The path with the extension of its last segment removed. -/
def stripExt (p : String) : String :=
  match (pathSegs p).getLast? with
  | none => p
  | some last => joinStr '/' ((pathSegs p).dropLast ++ [dropExtSeg last])

/-- Normalize `.`/`..` segments against the accumulated directory; `none`
when `..` escapes the repository root. -/
def normRel : List String → List String → Option (List String)
  | acc, [] => some acc
  | acc, seg :: rest =>
    if seg == "." || seg == "" then normRel acc rest
    else if seg == ".." then
      match acc with
      | [] => none
      | _ :: _ => normRel acc.dropLast rest
    else normRel (acc ++ [seg]) rest

def isRelative (m : String) : Bool :=
  hasLead (chars "./") (chars m) || hasLead (chars "../") (chars m)

/-- Modelled from the spec: `dependency_graph.py` is not among the sources.
Strategy (a): exact relative-path match after normalizing `./` and `../`
against the importing file's directory; only relative-style imports
participate. -/
def strategyRelative (known : List String) (f m : String) : Option String :=
  if isRelative m then
    match normRel (dirSegs f) (pathSegs m) with
    | none => none
    | some segs => known.find? (fun p => p == joinStr '/' segs)
  else none

def cleanSegs (m : String) : List String :=
  (pathSegs m).filter (fun s => s != "." && s != ".." && s != "")

/-- Modelled from the spec: `dependency_graph.py` is not among the sources.
Strategy (b): suffix match of the import's path segments against the known
paths with their extension ignored. -/
def strategySuffix (known : List String) (m : String) : Option String :=
  if cleanSegs m = [] then none
  else known.find? (fun p => (cleanSegs m).isSuffixOf (pathSegs (stripExt p)))

/-- Modelled from the spec: `dependency_graph.py` is not among the sources.
Strategy (c): package-root-relative match for absolute-style imports. -/
def strategyRoot (known : List String) (m : String) : Option String :=
  if isRelative m then none
  else known.find? (fun p => p == m || stripExt p == m)

/-- Modelled from the spec: `dependency_graph.py` is not among the sources.
The three resolution strategies are tried in the fixed order (a), (b), (c);
the first that succeeds wins. -/
def resolveImport (known : List String) (f m : String) : Option String :=
  match strategyRelative known f m with
  | some t => some t
  | none =>
    match strategySuffix known m with
    | some t => some t
    | none => strategyRoot known m

/-- The edge contributed by one import-kind record: none when resolution
fails, none for a self-import, otherwise the edge to the resolved target. -/
def edgeOfImport (known : List String) (f m : String) :
    Option (String × String) :=
  match resolveImport known f m with
  | none => none
  | some t => if t = f then none else some (f, t)

structure DependencyGraph where
  nodes : List String
  edges : List (String × String)
deriving DecidableEq, Repr

def fileEdges (known : List String) (f : String) (recs : List SymbolRecord) :
    List (String × String) :=
  recs.filterMap (fun r =>
    if r.kind = SymbolKind.imp then edgeOfImport known f r.name else none)

/-- Modelled from the spec: `dependency_graph.py` is not among the sources.
Nodes are the known file paths; the edges collect every resolved non-self
edge and are deduplicated, so edge multiplicity is not tracked. -/
def buildDependencyGraph (records : List (String × List SymbolRecord))
    (known : List String) : DependencyGraph :=
  { nodes := known.dedup
    edges := ((records.map (fun fr => fileEdges known fr.1 fr.2)).flatten).dedup }

/-! ## Graph metrics (`graph_metrics.py`) -/

/-- Modelled from the spec: `graph_metrics.py` is not among the sources.
Count of distinct edges leaving `f`. -/
def fan_out (g : DependencyGraph) (f : String) : Nat :=
  (g.edges.filter (fun e => e.1 == f)).length

/-- Modelled from the spec: `graph_metrics.py` is not among the sources.
Count of distinct files with an edge into `f`. -/
def fan_in (g : DependencyGraph) (f : String) : Nat :=
  (g.edges.filter (fun e => e.2 == f)).length

/-- Modelled from the spec: `graph_metrics.py` is not among the sources.
All files with fan-in 0, isolated files included. -/
def leaves (g : DependencyGraph) : List String :=
  g.nodes.filter (fun f => fan_in g f == 0)

/-! ## Archetype classifier (`archetype_detection.py`) -/

inductive Archetype
  | frontend
  | backend
  | fullstack
  | unknown
deriving DecidableEq, Repr

def FRONTEND_SIGNATURES : List String :=
  ["react", "react-dom", "vue", "svelte", "next"]

def BACKEND_SIGNATURES : List String :=
  ["fastapi", "flask", "django", "express"]

def fileMatches (sigs : List String) (recs : List SymbolRecord) : Bool :=
  recs.any (fun r => r.kind == SymbolKind.imp && sigs.contains r.name)

/-- The distinct files among `records` exhibiting the signature set. -/
def filesWith (sigs : List String)
    (records : List (String × List SymbolRecord)) : List String :=
  (((records.filter (fun fr => fileMatches sigs fr.2)).map (fun fr => fr.1))).dedup

/-- Modelled from the spec: `archetype_detection.py` is not among the
sources.  Count the distinct files exhibiting each signature set and apply
the documented decision rule. -/
def detectArchetype (records : List (String × List SymbolRecord)) : Archetype :=
  let fc := (filesWith FRONTEND_SIGNATURES records).length
  let bc := (filesWith BACKEND_SIGNATURES records).length
  if 0 < fc ∧ 0 < bc then Archetype.fullstack
  else if 0 < fc then Archetype.frontend
  else if 0 < bc then Archetype.backend
  else Archetype.unknown

/-- The condition under which a signature set fires: some file owns a
record of import kind whose written name is in the set. -/
def hasSig (sigs : List String)
    (records : List (String × List SymbolRecord)) : Prop :=
  ∃ fr ∈ records, ∃ r ∈ fr.2, r.kind = SymbolKind.imp ∧ r.name ∈ sigs

/-! ## Frontend: localStorage model and `storage.ts` -/

abbrev Store := List (String × String)

def setItem (k v : String) (s : Store) : Store :=
  (k, v) :: s.filter (fun kv => kv.1 != k)

def getItem (k : String) (s : Store) : Option String :=
  (s.find? (fun kv => kv.1 == k)).map (fun kv => kv.2)

def removeItem (k : String) (s : Store) : Store :=
  s.filter (fun kv => kv.1 != k)

def API_KEY_STORAGE_KEY : String := "giteq_gemini_api_key"

def THEME_STORAGE_KEY : String := "giteq_theme"

def saveApiKey (apiKey : String) (s : Store) : Store :=
  setItem API_KEY_STORAGE_KEY apiKey s

def getApiKey (s : Store) : Option String :=
  getItem API_KEY_STORAGE_KEY s

def clearApiKey (s : Store) : Store :=
  removeItem API_KEY_STORAGE_KEY s

/-- `applyTheme` toggles the `dark` class on the document element; the
class presence is the boolean state. -/
def applyTheme (theme : String) (_darkClass : Bool) : Bool :=
  if theme = "dark" then true else false

def saveTheme (theme : String) (s : Store) (darkClass : Bool) : Store × Bool :=
  (setItem THEME_STORAGE_KEY theme s, applyTheme theme darkClass)

/-- `getTheme` returns the stored string when it is truthy and falls back
to `"dark"` for a missing or empty value, mirroring `(stored) || 'dark'`. -/
def getTheme (s : Store) : String :=
  match getItem THEME_STORAGE_KEY s with
  | none => "dark"
  | some v => if v = "" then "dark" else v

/-! ## Frontend: `markdown.ts` URL validation -/

structure ParsedUrl where
  scheme : String
  hostname : String
  pathname : String
deriving DecidableEq, Repr

def schemeOk (l : List Char) : Bool :=
  match l with
  | [] => false
  | c :: rest =>
    c.isAlpha && rest.all (fun d => d.isAlphanum || d == '+' || d == '-' || d == '.')

/-- Split a character list into the part before the first stop character
and the remainder starting at it. -/
def cutAtAny (stops : List Char) (l : List Char) : List Char × List Char :=
  (l.takeWhile (fun c => !(stops.contains c)),
   l.dropWhile (fun c => !(stops.contains c)))

/-- The host of an authority component: drop the userinfo before `@`, drop
the port after `:`, lowercase the rest. -/
def hostOf (authority : List Char) : String :=
  let afterUser := (splitChars '@' authority).getLastD []
  let hostPort := (splitChars ':' afterUser).headD []
  lowerStr (ofChars hostPort)

/-- Model of the WHATWG URL constructor used by `validateGitHubUrl`,
restricted to the fields it reads: scheme, hostname and pathname.  A string
with no valid scheme fails to parse; a special `//` authority with an empty
host fails to parse; a URL without `//` has an opaque path and an empty
hostname. -/
def parseUrl (s : String) : Option ParsedUrl :=
  let cs := trimChars (chars s)
  match splitChars ':' cs with
  | [] => none
  | [_] => none
  | sch :: rest =>
    if schemeOk sch then
      let restChars := ((rest.intersperse [':'])).flatten
      if hasLead (chars "//") restChars then
        let after := restChars.drop 2
        let ap := cutAtAny ['/', '?', '#'] after
        let host := hostOf ap.1
        if host = "" then none
        else
          let path := (cutAtAny ['?', '#'] ap.2).1
          some { scheme := lowerStr (ofChars sch), hostname := host,
                 pathname := if path.isEmpty then "/" else ofChars path }
      else
        some { scheme := lowerStr (ofChars sch), hostname := "",
               pathname := ofChars (cutAtAny ['?', '#'] restChars).1 }
    else none

/-- Embedded from `src/frontend/src/utils/markdown.ts`:
`validateGitHubUrl` returns false when the URL constructor throws and
otherwise checks `hostname === 'github.com'` and
`pathname.split('/').length >= 3`. -/
def validateGitHubUrl (url : String) : Bool :=
  match parseUrl url with
  | none => false
  | some p =>
    p.hostname == "github.com" && decide (3 ≤ (splitStr '/' p.pathname).length)

/-! ## Frontend: `Header.tsx` -/

structure HeaderState where
  apiKey : String
  isSaved : Bool
deriving DecidableEq, Repr

/-- Embedded from `src/frontend/src/components/Header.tsx`: the change
handler sets the field state, clears the saved flag, and only when the
trimmed value is truthy persists the (untrimmed) key, sets the saved flag
and invokes the `onApiKeyChange` callback; the invoked callbacks are logged
in order. -/
def handleApiKeyChange (value : String) (s : Store) (calls : List String) :
    HeaderState × Store × List String :=
  let st1 : HeaderState := { apiKey := value, isSaved := false }
  if trimChars (chars value) ≠ [] then
    ({ st1 with isSaved := true }, saveApiKey value s, calls ++ [value])
  else (st1, s, calls)

deriving instance DecidableEq for Except

instance (sigs : List String) (records : List (String × List SymbolRecord)) :
    Decidable (hasSig sigs records) := by
  unfold hasSig
  infer_instance

/-! ## Concrete sample data used by the witnesses -/

def sampleARecords : List SymbolRecord :=
  [{ file_path := "a.py", kind := SymbolKind.imp, name := "b", line := 1 },
   { file_path := "a.py", kind := SymbolKind.imp, name := "b", line := 2 }]

def sampleRecords : List (String × List SymbolRecord) :=
  [("a.py", sampleARecords), ("b.py", [])]

def sampleKnown : List String := ["a.py", "b.py"]

/-- A TypeScript-side extractor that fails on one unparseable content,
standing in for a tree-sitter parse failure. -/
def failTsExtract : Extractor := fun _path content =>
  if content == "BROKEN" then Except.error "parse failure" else Except.ok []

def sampleTable : List (String × Extractor) :=
  [("py", pythonExtract), ("ts", failTsExtract)]

def sampleBatchPre : List (String × String) :=
  [("a.py", "import b"), ("b.py", "")]

def sampleBatchPost : List (String × String) :=
  [("c.py", "x = 1"), ("d.py", "x = 2")]

/-- Ten files, each importing the UI framework and nothing else. -/
def frontendRecords : List (String × List SymbolRecord) :=
  [("f0.tsx", [{ file_path := "f0.tsx", kind := SymbolKind.imp, name := "react", line := 1 }]),
   ("f1.tsx", [{ file_path := "f1.tsx", kind := SymbolKind.imp, name := "react", line := 1 }]),
   ("f2.tsx", [{ file_path := "f2.tsx", kind := SymbolKind.imp, name := "react", line := 1 }]),
   ("f3.tsx", [{ file_path := "f3.tsx", kind := SymbolKind.imp, name := "react", line := 1 }]),
   ("f4.tsx", [{ file_path := "f4.tsx", kind := SymbolKind.imp, name := "react", line := 1 }]),
   ("f5.tsx", [{ file_path := "f5.tsx", kind := SymbolKind.imp, name := "react", line := 1 }]),
   ("f6.tsx", [{ file_path := "f6.tsx", kind := SymbolKind.imp, name := "react", line := 1 }]),
   ("f7.tsx", [{ file_path := "f7.tsx", kind := SymbolKind.imp, name := "react", line := 1 }]),
   ("f8.tsx", [{ file_path := "f8.tsx", kind := SymbolKind.imp, name := "react", line := 1 }]),
   ("f9.tsx", [{ file_path := "f9.tsx", kind := SymbolKind.imp, name := "react", line := 1 }])]

/-! ## Helper lemmas -/

theorem sum_length_filter_eq_length (key : String × String → String)
    (nodes : List String) (edges : List (String × String))
    (hn : nodes.Nodup) (he : edges.Nodup)
    (hk : ∀ e ∈ edges, key e ∈ nodes) :
    (nodes.map (fun n => (edges.filter (fun e => key e == n)).length)).sum
      = edges.length := by
  classical
  have hmemt : ∀ x ∈ edges.toFinset, key x ∈ nodes.toFinset := by
    intro x hx
    exact List.mem_toFinset.mpr (hk x (List.mem_toFinset.mp hx))
  have hfib := Finset.card_eq_sum_card_fiberwise hmemt
  have hlist : ∀ n : String, (edges.filter (fun e => key e == n)).length
      = (edges.toFinset.filter (fun e => key e = n)).card := by
    intro n
    have h1 : (edges.filter (fun e => key e == n)).toFinset
        = edges.toFinset.filter (fun e => key e = n) := by
      rw [List.toFinset_filter]
      exact Finset.filter_congr (fun x _ => by simp)
    rw [← h1, List.toFinset_card_of_nodup (he.filter _)]
  calc (nodes.map (fun n => (edges.filter (fun e => key e == n)).length)).sum
      = (nodes.map (fun n => (edges.toFinset.filter (fun e => key e = n)).card)).sum := by
        simp only [hlist]
    _ = ∑ n ∈ nodes.toFinset, (edges.toFinset.filter (fun e => key e = n)).card :=
        (List.sum_toFinset _ hn).symm
    _ = edges.toFinset.card := hfib.symm
    _ = edges.length := List.toFinset_card_of_nodup he

theorem strategyRelative_mem {known : List String} {f m t : String}
    (h : strategyRelative known f m = some t) : t ∈ known := by
  unfold strategyRelative at h
  split at h
  · split at h
    · simp at h
    · exact List.mem_of_find?_eq_some h
  · simp at h

theorem strategySuffix_mem {known : List String} {m t : String}
    (h : strategySuffix known m = some t) : t ∈ known := by
  unfold strategySuffix at h
  split at h
  · simp at h
  · exact List.mem_of_find?_eq_some h

theorem strategyRoot_mem {known : List String} {m t : String}
    (h : strategyRoot known m = some t) : t ∈ known := by
  unfold strategyRoot at h
  split at h
  · simp at h
  · exact List.mem_of_find?_eq_some h

theorem resolveImport_mem {known : List String} {f m t : String}
    (h : resolveImport known f m = some t) : t ∈ known := by
  unfold resolveImport at h
  cases h1 : strategyRelative known f m with
  | some a =>
    rw [h1] at h
    cases h
    exact strategyRelative_mem h1
  | none =>
    rw [h1] at h
    cases h2 : strategySuffix known m with
    | some b =>
      rw [h2] at h
      cases h
      exact strategySuffix_mem h2
    | none =>
      rw [h2] at h
      exact strategyRoot_mem h

theorem edgeOfImport_some {known : List String} {f m : String}
    {e : String × String} (h : edgeOfImport known f m = some e) :
    e.1 = f ∧ e.2 ∈ known := by
  unfold edgeOfImport at h
  cases hres : resolveImport known f m with
  | none =>
    rw [hres] at h
    simp at h
  | some t =>
    rw [hres] at h
    have h' : (if t = f then (none : Option (String × String)) else some (f, t))
        = some e := h
    by_cases hft : t = f
    · rw [if_pos hft] at h'
      simp at h'
    · rw [if_neg hft] at h'
      cases h'
      exact ⟨rfl, resolveImport_mem hres⟩

theorem mem_edges_build {records : List (String × List SymbolRecord)}
    {known : List String} {e : String × String}
    (he : e ∈ (buildDependencyGraph records known).edges) :
    (∃ fr ∈ records, e.1 = fr.1) ∧ e.2 ∈ known := by
  have he' : e ∈ ((records.map (fun fr => fileEdges known fr.1 fr.2)).flatten).dedup := he
  rw [List.mem_dedup, List.mem_flatten] at he'
  obtain ⟨l, hl, hel⟩ := he'
  obtain ⟨fr, hfr, rfl⟩ := List.mem_map.mp hl
  simp only [fileEdges] at hel
  rw [List.mem_filterMap] at hel
  obtain ⟨r, _, heq⟩ := hel
  by_cases hk : r.kind = SymbolKind.imp
  · rw [if_pos hk] at heq
    obtain ⟨h1, h2⟩ := edgeOfImport_some heq
    exact ⟨⟨fr, hfr, h1⟩, h2⟩
  · rw [if_neg hk] at heq
    simp at heq

theorem edge_mem_build {records : List (String × List SymbolRecord)}
    {known : List String} {f t : String} {recs : List SymbolRecord}
    {r : SymbolRecord} (hfr : (f, recs) ∈ records) (hr : r ∈ recs)
    (hkind : r.kind = SymbolKind.imp)
    (hres : resolveImport known f r.name = some t) (hne : t ≠ f) :
    (f, t) ∈ (buildDependencyGraph records known).edges := by
  show (f, t) ∈ ((records.map (fun fr => fileEdges known fr.1 fr.2)).flatten).dedup
  rw [List.mem_dedup, List.mem_flatten]
  refine ⟨fileEdges known f recs, List.mem_map.mpr ⟨(f, recs), hfr, rfl⟩, ?_⟩
  simp only [fileEdges]
  rw [List.mem_filterMap]
  refine ⟨r, hr, ?_⟩
  rw [if_pos hkind]
  unfold edgeOfImport
  rw [hres]
  show (if t = f then (none : Option (String × String)) else some (f, t))
      = some (f, t)
  rw [if_neg hne]

theorem length_filter_eq_one {α : Type} {l : List α} {a : α} {p : α → Bool}
    (hn : l.Nodup) (ha : a ∈ l) (hp : ∀ x, p x = true ↔ x = a) :
    (l.filter p).length = 1 := by
  induction l with
  | nil => cases ha
  | cons b bs ih =>
    have hnb := List.nodup_cons.mp hn
    rcases List.mem_cons.mp ha with hab | hab
    · subst hab
      rw [List.filter_cons_of_pos ((hp a).mpr rfl)]
      have hnil : bs.filter p = [] := by
        rw [List.filter_eq_nil_iff]
        intro x hx hpx
        exact hnb.1 ((hp x).mp hpx ▸ hx)
      rw [hnil]
      rfl
    · have hba : ¬ (p b = true) := by
        rw [hp]
        rintro rfl
        exact hnb.1 hab
      rw [List.filter_cons_of_neg hba]
      exact ih hnb.2 hab

theorem dispatchExtract_append (table : List (String × Extractor))
    (xs ys : List (String × String)) :
    dispatchExtract table (xs ++ ys)
      = ((dispatchExtract table xs).1 ++ (dispatchExtract table ys).1,
         (dispatchExtract table xs).2 ++ (dispatchExtract table ys).2) := by
  induction xs with
  | nil => simp [dispatchExtract]
  | cons x xs ih =>
    unfold dispatchExtract at *
    simp only [List.cons_append, List.foldr_cons, ih]
    unfold dispatchStep
    split
    · rfl
    · split <;> rfl

theorem dispatchExtract_cons_error (table : List (String × Extractor))
    (bad content msg : String) (ex : Extractor)
    (rest : List (String × String))
    (hfind : (table.find? (fun te => te.1 == fileExtension bad)).map
        (fun te => te.2) = some ex)
    (herr : ex bad content = Except.error msg) :
    dispatchExtract table ((bad, content) :: rest)
      = ((dispatchExtract table rest).1,
         (bad, msg) :: (dispatchExtract table rest).2) := by
  unfold dispatchExtract
  rw [List.foldr_cons]
  unfold dispatchStep
  simp [hfind, herr]

theorem pyLineRecords_eq_nil {path : String} {n : Nat} {line : String}
    (h : recognizesLine line = false) : pyLineRecords path n line = [] := by
  unfold recognizesLine at h
  simp only [Bool.or_eq_false_iff] at h
  obtain ⟨⟨⟨h1, h2⟩, h3⟩, h4⟩ := h
  simp [pyLineRecords, h1, h2, h3, h4]

theorem pyLines_eq_nil {path : String} {ls : List String}
    (h : ∀ line ∈ ls, recognizesLine line = false) :
    ∀ n, pyLines path n ls = [] := by
  induction ls with
  | nil => intro n; rfl
  | cons l rest ih =>
    intro n
    simp only [pyLines]
    rw [pyLineRecords_eq_nil (h l (List.mem_cons_self _ _)), List.nil_append]
    exact ih (fun x hx => h x (List.mem_cons_of_mem _ hx)) (n + 1)

theorem find_key_filter_ne (k : String) (s : Store) :
    (s.filter (fun kv => kv.1 != k)).find? (fun kv => kv.1 == k) = none := by
  induction s with
  | nil => rfl
  | cons kv rest ih =>
    by_cases h : kv.1 = k
    · simp [List.filter_cons, h, ih]
    · simp [List.filter_cons, List.find?_cons, h, ih]

theorem fileMatches_iff (sigs : List String) (recs : List SymbolRecord) :
    fileMatches sigs recs = true ↔
      ∃ r ∈ recs, r.kind = SymbolKind.imp ∧ r.name ∈ sigs := by
  unfold fileMatches
  rw [List.any_eq_true]
  constructor
  · rintro ⟨r, hr, hp⟩
    rw [Bool.and_eq_true, beq_iff_eq] at hp
    exact ⟨r, hr, hp.1, by
      have := hp.2
      simpa using this⟩
  · rintro ⟨r, hr, h1, h2⟩
    refine ⟨r, hr, ?_⟩
    rw [Bool.and_eq_true, beq_iff_eq]
    exact ⟨h1, by simpa using h2⟩

theorem mem_filesWith {sigs : List String}
    {records : List (String × List SymbolRecord)} {x : String} :
    x ∈ filesWith sigs records ↔
      ∃ fr ∈ records, fr.1 = x ∧ fileMatches sigs fr.2 = true := by
  unfold filesWith
  rw [List.mem_dedup, List.mem_map]
  constructor
  · rintro ⟨fr, hfr, rfl⟩
    rw [List.mem_filter] at hfr
    exact ⟨fr, hfr.1, rfl, hfr.2⟩
  · rintro ⟨fr, hfr, hx, hm⟩
    exact ⟨fr, List.mem_filter.mpr ⟨hfr, hm⟩, hx⟩

theorem filesWith_length_ne_zero_iff (sigs : List String)
    (records : List (String × List SymbolRecord)) :
    (filesWith sigs records).length ≠ 0 ↔ hasSig sigs records := by
  rw [Ne, List.length_eq_zero]
  constructor
  · intro h
    obtain ⟨x, hx⟩ := List.exists_mem_of_ne_nil _ h
    obtain ⟨fr, hfr, _, hm⟩ := mem_filesWith.mp hx
    obtain ⟨r, hr, h1, h2⟩ := (fileMatches_iff _ _).mp hm
    exact ⟨fr, hfr, r, hr, h1, h2⟩
  · rintro ⟨fr, hfr, r, hr, h1, h2⟩ hnil
    have hm : fileMatches sigs fr.2 = true := (fileMatches_iff _ _).mpr ⟨r, hr, h1, h2⟩
    have hx : fr.1 ∈ filesWith sigs records := mem_filesWith.mpr ⟨fr, hfr, rfl, hm⟩
    rw [hnil] at hx
    cases hx

theorem detectArchetype_eq (records : List (String × List SymbolRecord)) :
    detectArchetype records =
      if hasSig FRONTEND_SIGNATURES records ∧ hasSig BACKEND_SIGNATURES records
        then Archetype.fullstack
      else if hasSig FRONTEND_SIGNATURES records then Archetype.frontend
      else if hasSig BACKEND_SIGNATURES records then Archetype.backend
      else Archetype.unknown := by
  unfold detectArchetype
  have hf : 0 < (filesWith FRONTEND_SIGNATURES records).length ↔
      hasSig FRONTEND_SIGNATURES records := by
    rw [Nat.pos_iff_ne_zero]
    exact filesWith_length_ne_zero_iff _ _
  have hb : 0 < (filesWith BACKEND_SIGNATURES records).length ↔
      hasSig BACKEND_SIGNATURES records := by
    rw [Nat.pos_iff_ne_zero]
    exact filesWith_length_ne_zero_iff _ _
  rw [if_congr (and_congr hf hb) rfl rfl, if_congr hf rfl rfl, if_congr hb rfl rfl]

/-! ## Claim theorems -/

/-- Claim C1: for every DependencyGraph produced by the dependency graph
builder (from a record mapping whose keys are known paths), the sum of
fan_out over all files equals the sum of fan_in over all files, and both
equal the number of edges in the graph. -/
theorem C1_fan_out_fan_in_sum (records : List (String × List SymbolRecord))
    (known : List String) (hsrc : ∀ fr ∈ records, fr.1 ∈ known) :
    ((buildDependencyGraph records known).nodes.map
        (fan_out (buildDependencyGraph records known))).sum
      = (buildDependencyGraph records known).edges.length ∧
    ((buildDependencyGraph records known).nodes.map
        (fan_in (buildDependencyGraph records known))).sum
      = (buildDependencyGraph records known).edges.length := by
  have hnodes : (buildDependencyGraph records known).nodes.Nodup :=
    List.nodup_dedup _
  have hedges : (buildDependencyGraph records known).edges.Nodup :=
    List.nodup_dedup _
  constructor
  · exact sum_length_filter_eq_length (fun e => e.1) _ _ hnodes hedges
      (fun e he => by
        obtain ⟨⟨fr, hfr, h1⟩, _⟩ := mem_edges_build he
        refine List.mem_dedup.mpr ?_
        show e.1 ∈ known
        rw [h1]
        exact hsrc fr hfr)
  · exact sum_length_filter_eq_length (fun e => e.2) _ _ hnodes hedges
      (fun e he => by
        obtain ⟨_, h2⟩ := mem_edges_build he
        exact List.mem_dedup.mpr h2)

/-- Witness for C1 at a concrete two-file repository in which the file
`a.py` imports `b` twice. -/
theorem C1_fan_out_fan_in_sum_witness :
    ((buildDependencyGraph sampleRecords sampleKnown).nodes.map
        (fan_out (buildDependencyGraph sampleRecords sampleKnown))).sum
      = (buildDependencyGraph sampleRecords sampleKnown).edges.length ∧
    ((buildDependencyGraph sampleRecords sampleKnown).nodes.map
        (fan_in (buildDependencyGraph sampleRecords sampleKnown))).sum
      = (buildDependencyGraph sampleRecords sampleKnown).edges.length :=
  C1_fan_out_fan_in_sum sampleRecords sampleKnown (by decide)

/-- Claim C2: the built graph has at most one edge per pair (its edge list
is duplicate-free), and when a file holds an import-kind record resolving
to a known target other than itself, the graph holds exactly one edge from
the importer to that target and the target's fan-in counts the importing
file exactly once, however many times the import is repeated. -/
theorem C2_edge_dedup (records : List (String × List SymbolRecord))
    (known : List String) (f t : String) (recs : List SymbolRecord)
    (r : SymbolRecord) (hfr : (f, recs) ∈ records) (hr : r ∈ recs)
    (hkind : r.kind = SymbolKind.imp)
    (hres : resolveImport known f r.name = some t) (hne : t ≠ f) :
    (buildDependencyGraph records known).edges.Nodup ∧
    (f, t) ∈ (buildDependencyGraph records known).edges ∧
    ((buildDependencyGraph records known).edges.filter
        (fun e => e.1 == f && e.2 == t)).length = 1 ∧
    (((buildDependencyGraph records known).edges.filter
        (fun e => e.2 == t)).filter (fun e => e.1 == f)).length = 1 := by
  have hedges : (buildDependencyGraph records known).edges.Nodup :=
    List.nodup_dedup _
  have hmem : (f, t) ∈ (buildDependencyGraph records known).edges :=
    edge_mem_build hfr hr hkind hres hne
  have hp : ∀ x : String × String, (x.1 == f && x.2 == t) = true ↔ x = (f, t) := by
    intro x
    cases x with
    | mk a b =>
      simp only [Bool.and_eq_true, beq_iff_eq, Prod.mk.injEq]
  refine ⟨hedges, hmem, length_filter_eq_one hedges hmem hp, ?_⟩
  rw [List.filter_filter]
  refine length_filter_eq_one hedges hmem ?_
  intro x
  cases x with
  | mk a b =>
    simp only [Bool.and_eq_true, beq_iff_eq, Prod.mk.injEq]

/-- Witness for C2: `a.py` imports `b` twice, yet exactly one edge to
`b.py` exists and its fan-in counts `a.py` once. -/
theorem C2_edge_dedup_witness :
    (buildDependencyGraph sampleRecords sampleKnown).edges.Nodup ∧
    ("a.py", "b.py") ∈ (buildDependencyGraph sampleRecords sampleKnown).edges ∧
    ((buildDependencyGraph sampleRecords sampleKnown).edges.filter
        (fun e => e.1 == "a.py" && e.2 == "b.py")).length = 1 ∧
    (((buildDependencyGraph sampleRecords sampleKnown).edges.filter
        (fun e => e.2 == "b.py")).filter (fun e => e.1 == "a.py")).length = 1 :=
  C2_edge_dedup sampleRecords sampleKnown "a.py" "b.py" sampleARecords
    { file_path := "a.py", kind := SymbolKind.imp, name := "b", line := 1 }
    (by decide) (by decide) rfl (by decide) (by decide)

/-- Claim C5: the resolution strategies are tried in the fixed order
relative, suffix, package-root; the first success determines the result,
failure of all three produces no edge, and an import resolving to the
very importing file produces no edge. -/
theorem C5_resolution_order (known : List String) (f m t : String) :
    (strategyRelative known f m = some t → resolveImport known f m = some t) ∧
    (strategyRelative known f m = none → strategySuffix known m = some t →
      resolveImport known f m = some t) ∧
    (strategyRelative known f m = none → strategySuffix known m = none →
      resolveImport known f m = strategyRoot known m) ∧
    (resolveImport known f m = none → edgeOfImport known f m = none) ∧
    (resolveImport known f m = some f → edgeOfImport known f m = none) := by
  refine ⟨?_, ?_, ?_, ?_, ?_⟩
  · intro h
    unfold resolveImport
    rw [h]
  · intro h1 h2
    unfold resolveImport
    rw [h1]
    show (match strategySuffix known m with
      | some t => some t
      | none => strategyRoot known m) = some t
    rw [h2]
  · intro h1 h2
    unfold resolveImport
    rw [h1]
    show (match strategySuffix known m with
      | some t => some t
      | none => strategyRoot known m) = strategyRoot known m
    rw [h2]
  · intro h
    unfold edgeOfImport
    rw [h]
  · intro h
    unfold edgeOfImport
    rw [h]
    show (if f = f then (none : Option (String × String)) else some (f, f)) = none
    rw [if_pos rfl]

/-- Witness for C5: a suffix-strategy resolution after the relative
strategy fails, an unresolvable import, and a self-import. -/
theorem C5_resolution_order_witness :
    resolveImport ["a/b.ts", "a/c.ts"] "a/c.ts" "./b" = some "a/b.ts" ∧
    edgeOfImport ["a.py"] "a.py" "zzz" = none ∧
    edgeOfImport ["a.py"] "a.py" "a" = none :=
  ⟨(C5_resolution_order ["a/b.ts", "a/c.ts"] "a/c.ts" "./b" "a/b.ts").2.1
      (by decide) (by decide),
   (C5_resolution_order ["a.py"] "a.py" "zzz" "").2.2.2.1 (by decide),
   (C5_resolution_order ["a.py"] "a.py" "a" "").2.2.2.2 (by decide)⟩

/-- Claim C6: `leaves` is exactly the set of files with fan-in 0 — every
fan-in-0 file (isolated files included) appears exactly once, and no file
with positive fan-in appears. -/
theorem C6_leaves_exact (records : List (String × List SymbolRecord))
    (known : List String) :
    (∀ f, f ∈ leaves (buildDependencyGraph records known) ↔
        f ∈ (buildDependencyGraph records known).nodes ∧
          fan_in (buildDependencyGraph records known) f = 0) ∧
    (∀ f, f ∈ (buildDependencyGraph records known).nodes →
        fan_in (buildDependencyGraph records known) f = 0 →
        (leaves (buildDependencyGraph records known)).count f = 1) ∧
    (∀ f, 0 < fan_in (buildDependencyGraph records known) f →
        f ∉ leaves (buildDependencyGraph records known)) := by
  have hnodes : (buildDependencyGraph records known).nodes.Nodup :=
    List.nodup_dedup _
  have hmem : ∀ f, f ∈ leaves (buildDependencyGraph records known) ↔
      f ∈ (buildDependencyGraph records known).nodes ∧
        fan_in (buildDependencyGraph records known) f = 0 := by
    intro f
    unfold leaves
    rw [List.mem_filter]
    simp
  refine ⟨hmem, ?_, ?_⟩
  · intro f hf h0
    have hl : (leaves (buildDependencyGraph records known)).Nodup :=
      hnodes.filter _
    exact List.count_eq_one_of_mem hl ((hmem f).mpr ⟨hf, h0⟩)
  · intro f hpos hin
    have h0 := ((hmem f).mp hin).2
    omega

/-- Witness for C6: in the sample graph `a.py` has fan-in 0 and appears in
`leaves` exactly once, while `b.py` has positive fan-in and is excluded. -/
theorem C6_leaves_exact_witness :
    (leaves (buildDependencyGraph sampleRecords sampleKnown)).count "a.py" = 1 ∧
    "b.py" ∉ leaves (buildDependencyGraph sampleRecords sampleKnown) :=
  ⟨(C6_leaves_exact sampleRecords sampleKnown).2.1 "a.py" (by decide) (by decide),
   (C6_leaves_exact sampleRecords sampleKnown).2.2 "b.py" (by decide)⟩

/-- Claim C3: a per-file extraction failure does not abort the batch — the
failing file lands in the failed set with its reason message, the
successful results are exactly those of the batch without the failing file,
and the dispatcher, being a total function, lets no exception escape. -/
theorem C3_batch_isolation (table : List (String × Extractor))
    (pre post : List (String × String)) (bad content msg : String)
    (ex : Extractor)
    (hfind : (table.find? (fun te => te.1 == fileExtension bad)).map
        (fun te => te.2) = some ex)
    (herr : ex bad content = Except.error msg) :
    (dispatchExtract table (pre ++ (bad, content) :: post)).1
      = (dispatchExtract table (pre ++ post)).1 ∧
    (dispatchExtract table (pre ++ (bad, content) :: post)).2
      = (dispatchExtract table pre).2 ++ (bad, msg) ::
          (dispatchExtract table post).2 := by
  have h1 := dispatchExtract_append table pre ((bad, content) :: post)
  have h3 := dispatchExtract_append table pre post
  have hcons := dispatchExtract_cons_error table bad content msg ex post hfind herr
  refine ⟨?_, ?_⟩ <;> simp [h1, h3, hcons]

/-- Witness for C3: one unparseable `x.ts` among four valid files is
recorded as failed with its message while the other four still extract. -/
theorem C3_batch_isolation_witness :
    (dispatchExtract sampleTable
        (sampleBatchPre ++ ("x.ts", "BROKEN") :: sampleBatchPost)).1
      = (dispatchExtract sampleTable (sampleBatchPre ++ sampleBatchPost)).1 ∧
    (dispatchExtract sampleTable
        (sampleBatchPre ++ ("x.ts", "BROKEN") :: sampleBatchPost)).2
      = (dispatchExtract sampleTable sampleBatchPre).2 ++ ("x.ts", "parse failure") ::
          (dispatchExtract sampleTable sampleBatchPost).2 :=
  C3_batch_isolation sampleTable sampleBatchPre sampleBatchPost
    "x.ts" "BROKEN" "parse failure" failTsExtract rfl rfl

/-- Claim C4: the archetype classifier fires on distinct files per
signature set — fullstack when both sets fire, frontend or backend when
only one fires, unknown when neither does; the distinct-file lists are
duplicate-free and repeating a matching import inside a file does not
change the classification. -/
theorem C4_archetype_rule (records : List (String × List SymbolRecord)) :
    (detectArchetype records = Archetype.fullstack ↔
      hasSig FRONTEND_SIGNATURES records ∧ hasSig BACKEND_SIGNATURES records) ∧
    (detectArchetype records = Archetype.frontend ↔
      hasSig FRONTEND_SIGNATURES records ∧ ¬ hasSig BACKEND_SIGNATURES records) ∧
    (detectArchetype records = Archetype.backend ↔
      ¬ hasSig FRONTEND_SIGNATURES records ∧ hasSig BACKEND_SIGNATURES records) ∧
    (detectArchetype records = Archetype.unknown ↔
      ¬ hasSig FRONTEND_SIGNATURES records ∧ ¬ hasSig BACKEND_SIGNATURES records) ∧
    (∀ sigs, (filesWith sigs records).Nodup) ∧
    (∀ f r recs rest,
      detectArchetype ((f, r :: r :: recs) :: rest)
        = detectArchetype ((f, r :: recs) :: rest)) := by
  refine ⟨?_, ?_, ?_, ?_, fun sigs => List.nodup_dedup _, ?_⟩
  · rw [detectArchetype_eq]
    split_ifs with h1 h2 h3 <;> simp_all
  · rw [detectArchetype_eq]
    split_ifs with h1 h2 h3 <;> simp_all
  · rw [detectArchetype_eq]
    split_ifs with h1 h2 h3 <;> simp_all
  · rw [detectArchetype_eq]
    split_ifs with h1 h2 h3 <;> simp_all
  · intro f r recs rest
    have key : ∀ sigs, filesWith sigs ((f, r :: r :: recs) :: rest)
        = filesWith sigs ((f, r :: recs) :: rest) := by
      intro sigs
      have hm : fileMatches sigs (r :: r :: recs) = fileMatches sigs (r :: recs) := by
        unfold fileMatches
        cases hone : (r.kind == SymbolKind.imp && sigs.contains r.name) <;>
          simp [List.any_cons, hone]
      cases hb : fileMatches sigs (r :: recs) with
      | true =>
        simp [filesWith, List.filter_cons, hm, hb]
      | false =>
        simp [filesWith, List.filter_cons, hm, hb]
    simp only [detectArchetype]
    rw [key FRONTEND_SIGNATURES, key BACKEND_SIGNATURES]

/-- Claim C7: degenerate inputs still give well-formed outputs — an empty
file and a file with no recognized construct extract to the empty record
sequence (never an error), an empty batch dispatches to an empty result,
and zero files yield a well-formed empty graph, empty leaves and archetype
`unknown`. -/
theorem C7_degenerate_inputs :
    (∀ path, pythonExtract path "" = Except.ok []) ∧
    (∀ path content,
      (∀ line ∈ splitStr '\n' content, recognizesLine line = false) →
      pythonExtract path content = Except.ok []) ∧
    (∀ table, dispatchExtract table [] = ([], [])) ∧
    (∀ known, buildDependencyGraph [] known
      = { nodes := known.dedup, edges := [] }) ∧
    detectArchetype [] = Archetype.unknown ∧
    leaves (buildDependencyGraph [] []) = [] := by
  refine ⟨?_, ?_, fun table => rfl, fun known => rfl, rfl, rfl⟩
  · intro path
    unfold pythonExtract
    have h1 : pyLines path 1 (splitStr '\n' "") = [] := by
      have hsplit : splitStr '\n' "" = [""] := by decide
      rw [hsplit]
      simp only [pyLines]
      rw [pyLineRecords_eq_nil (by decide), List.nil_append]
    rw [h1]
  · intro path content h
    unfold pythonExtract
    rw [pyLines_eq_nil h 1]

/-- Witness for C7: a one-line file with no import, class or function
construct extracts to the empty record sequence. -/
theorem C7_degenerate_inputs_witness :
    pythonExtract "m.py" "x = 1" = Except.ok [] :=
  C7_degenerate_inputs.2.1 "m.py" "x = 1" (by decide)

/-- Claim C8: `validateGitHubUrl` is total — true exactly when the input
parses as a URL with hostname `github.com` whose pathname splits on `/`
into at least 3 segments, false (not a thrown error) on parse failure; in
particular `https://github.com/owner` is rejected for lacking a repository
segment and the scheme is not restricted. -/
theorem C8_validateGitHubUrl_spec :
    (∀ s, validateGitHubUrl s = true ↔
      ∃ p, parseUrl s = some p ∧ p.hostname = "github.com" ∧
        3 ≤ (splitStr '/' p.pathname).length) ∧
    (∀ s, parseUrl s = none → validateGitHubUrl s = false) ∧
    validateGitHubUrl "https://github.com/owner" = false ∧
    validateGitHubUrl "https://github.com/owner/repo" = true ∧
    validateGitHubUrl "ftp://github.com/owner/repo" = true ∧
    validateGitHubUrl "not a url" = false := by
  refine ⟨?_, ?_, by decide, by decide, by decide, by decide⟩
  · intro s
    unfold validateGitHubUrl
    cases h : parseUrl s with
    | none => simp
    | some p => simp
  · intro s h
    unfold validateGitHubUrl
    rw [h]

/-- Witness for C8: a string with no valid scheme fails to parse and is
rejected rather than raising. -/
theorem C8_validateGitHubUrl_spec_witness :
    validateGitHubUrl "::" = false :=
  C8_validateGitHubUrl_spec.2.1 "::" (by decide)

/-- Claim C9: the localStorage-backed settings round-trip — `getApiKey`
after `saveApiKey k` yields `k`, `getApiKey` after `clearApiKey` yields
null, `getTheme` after `saveTheme t` yields `t` for the two themes, and
`getTheme` with nothing stored defaults to dark. -/
theorem C9_storage_roundtrip :
    (∀ k s, getApiKey (saveApiKey k s) = some k) ∧
    (∀ s, getApiKey (clearApiKey s) = none) ∧
    (∀ t s d, t = "dark" ∨ t = "light" → getTheme (saveTheme t s d).1 = t) ∧
    (∀ s, getItem THEME_STORAGE_KEY s = none → getTheme s = "dark") := by
  refine ⟨?_, ?_, ?_, ?_⟩
  · intro k s
    simp [getApiKey, saveApiKey, getItem, setItem, List.find?_cons]
  · intro s
    unfold getApiKey clearApiKey getItem removeItem
    rw [find_key_filter_ne]
    rfl
  · intro t s d h
    rcases h with h | h <;> subst h <;>
      simp [getTheme, saveTheme, getItem, setItem, List.find?_cons,
        THEME_STORAGE_KEY]
  · intro s h
    unfold getTheme
    rw [h]

/-- Witness for C9: the light theme round-trips through an empty store and
an empty store defaults to dark. -/
theorem C9_storage_roundtrip_witness :
    getTheme (saveTheme "light" [] false).1 = "light" ∧ getTheme [] = "dark" :=
  ⟨C9_storage_roundtrip.2.2.1 "light" [] false (Or.inr rfl),
   C9_storage_roundtrip.2.2.2 [] rfl⟩

/-- Claim C10: when the input value trims to the empty string the header's
change handler leaves the persisted key untouched and never invokes the
callback; a value with non-whitespace content is saved verbatim and
propagated exactly once. -/
theorem C10_empty_key_no_effect :
    (∀ value s calls, trimChars (chars value) = [] →
      (handleApiKeyChange value s calls).2.1 = s ∧
      (handleApiKeyChange value s calls).2.2 = calls) ∧
    (∀ value s calls, trimChars (chars value) ≠ [] →
      (handleApiKeyChange value s calls).2.1 = saveApiKey value s ∧
      (handleApiKeyChange value s calls).2.2 = calls ++ [value]) := by
  constructor
  · intro value s calls h
    unfold handleApiKeyChange
    rw [if_neg (fun hn => hn h)]
    exact ⟨rfl, rfl⟩
  · intro value s calls h
    unfold handleApiKeyChange
    rw [if_pos h]
    exact ⟨rfl, rfl⟩

/-- Witness for C10: a whitespace-only value leaves a stored key and the
callback log untouched, while a real key is saved and propagated. -/
theorem C10_empty_key_no_effect_witness :
    ((handleApiKeyChange "   " [("giteq_gemini_api_key", "old")] []).2.1
        = [("giteq_gemini_api_key", "old")] ∧
      (handleApiKeyChange "   " [("giteq_gemini_api_key", "old")] []).2.2 = []) ∧
    ((handleApiKeyChange "k1" [] []).2.1 = saveApiKey "k1" [] ∧
      (handleApiKeyChange "k1" [] []).2.2 = [] ++ ["k1"]) :=
  ⟨C10_empty_key_no_effect.1 "   " [("giteq_gemini_api_key", "old")] [] (by decide),
   C10_empty_key_no_effect.2 "k1" [] [] (by decide)⟩

/-- Witness for C4: ten files all importing the UI framework and none of
them importing a server framework classify as frontend. -/
theorem C4_archetype_rule_witness :
    detectArchetype frontendRecords = Archetype.frontend :=
  (C4_archetype_rule frontendRecords).2.1.mpr ⟨by decide, by decide⟩
